import Mathlib

/-!
# Verification of the gbkf-core-cpp binary codec

A shallow embedding of the GBKF core codec (`src/lib/GBKFCore.cpp` together
with its header `GBKFCore.hxx`): the fixed 16-byte header, the keyed-entry
stream, the `Reader` that decodes a byte buffer into a mapping of keyed
entries, the `Writer` that appends keyed entries to a growing buffer, and the
trailing SHA-256 integrity footer.

Modelling conventions:
* C++ `uint8_t/uint16_t/uint32_t/uint64_t` values are `Nat`s; wherever the
  code can overflow, a `% 2^w` is applied explicitly.
* Byte buffers (`std::vector<uint8_t>`) are `List Nat` whose elements are
  below 256 by construction on the writer side.
* C++ exceptions become `Except GbkfError`; an out-of-bounds vector access
  (undefined behaviour in the source) is modelled as the `outOfBounds` error.
* `float`/`double` values are modelled by their IEEE-754 bit patterns
  (a `Nat` below `2^32` resp. `2^64`); bit-for-bit equality of floats is
  equality of the patterns.  The source runs on little-endian hosts (the
  sibling writer iteration aborts on big-endian hosts), so `memcpy` of a
  float is serialization of the pattern in little-endian byte order.
-/

namespace GBKFCore

/-- The error conditions of the codec: each corresponds to a `throw` in
`GBKFCore.cpp`, plus `outOfBounds` for an out-of-range vector access. -/
inductive GbkfError where
  /-- `Reader::Reader`: "Data too small" (buffer below 32 bytes). -/
  | dataTooSmall
  /-- `Reader::readHeader`: "Header too short". -/
  | headerTooShort
  /-- `Reader::readHeader`: "Invalid start keyword". -/
  | invalidStartKeyword
  /-- `Reader::readValuesBool`: "Boolean reading out of bounds on last byte". -/
  | boolLastByteOutOfBounds
  /-- `Reader::getKeyedEntries`: "Unsupported value type" (also covers the
  `KeyedEntry` constructor's "Unsupported type"). -/
  | unsupportedValueType
  /-- `Writer::setKeysLength`: "Key length mismatch". -/
  | keyLengthMismatch
  /-- `Writer::setUInt8/16/32/64`: "Value out of range". -/
  | valueOutOfRange
  /-- `Writer::formatFloat32`: "Float32 too large". -/
  | float32TooLarge
  /-- `Writer::formatFloat64`: "Float64 too large". -/
  | float64TooLarge
  /-- An out-of-range `std::vector` access (undefined behaviour in C++). -/
  | outOfBounds
  deriving DecidableEq, Repr

namespace Constants

/-- `Constants::Header::START_KEYWORD` = "gbkf" as bytes. -/
def START_KEYWORD : List Nat := [103, 98, 107, 102]

/-- `Constants::Header::GBKF_VERSION_START` = 4. -/
def GBKF_VERSION_START : Nat := 4

/-- `Constants::Header::SPECIFICATION_ID_START` = 5. -/
def SPECIFICATION_ID_START : Nat := 5

/-- `Constants::Header::SPECIFICATION_VERSION_START` = 9. -/
def SPECIFICATION_VERSION_START : Nat := 9

/-- `Constants::Header::KEYS_LENGTH_START` = 11. -/
def KEYS_LENGTH_START : Nat := 11

/-- `Constants::Header::KEYED_VALUES_NB_START` = 12. -/
def KEYED_VALUES_NB_START : Nat := 12

/-- `Constants::Header::LENGTH` = 16. -/
def HEADER_LENGTH : Nat := 16

/-- `Constants::SHA256_LENGTH` = 32. -/
def SHA256_LENGTH : Nat := 32

end Constants

/-- Big-endian serialization of the low `w` bytes of `v`: the loop of
`Writer::formatUInt16/32/64` (`out[i] = value & 0xFF; value >>= 8;` with `i`
descending), parametrized by the byte width. -/
def bytesBE : Nat → Nat → List Nat
  | 0, _ => []
  | w + 1, v => bytesBE w (v >>> 8) ++ [v &&& 255]

/-- Little-endian serialization of the low `w` bytes of `v`: `memcpy` of a
`w`-byte scalar on a little-endian host (used for `float`/`double`). -/
def bytesLE : Nat → Nat → List Nat
  | 0, _ => []
  | w + 1, v => (v &&& 255) :: bytesLE w (v >>> 8)

/-- `std::copy` of `bytes` into a buffer starting at `pos`. -/
def setBytesAt (buf : List Nat) (pos : Nat) : List Nat → List Nat
  | [] => buf
  | b :: bs => setBytesAt (buf.set pos b) (pos + 1) bs

/-! ## SHA-256

Modelled from the spec: the digest provider `sha256(bytes) -> 32 bytes` is an
external collaborator of the core (spec §1, §6); the repository delegates to
OpenSSL or the vendored `picosha2.hxx`, which is not part of the core
sources.  The definitions below are the standard (FIPS 180-4) SHA-256 over a
byte list, with 32-bit words as `Nat % 2^32`. -/

/-- Right rotation of a 32-bit word. -/
def shaRotr (n x : Nat) : Nat := ((x >>> n) ||| (x <<< (32 - n))) % 4294967296

/-- The 64 SHA-256 round constants. -/
def shaK : List Nat :=
  [1116352408, 1899447441, 3049323471, 3921009573, 961987163, 1508970993,
   2453635748, 2870763221, 3624381080, 310598401, 607225278, 1426881987,
   1925078388, 2162078206, 2614888103, 3248222580, 3835390401, 4022224774,
   264347078, 604807628, 770255983, 1249150122, 1555081692, 1996064986,
   2554220882, 2821834349, 2952996808, 3210313671, 3336571891, 3584528711,
   113926993, 338241895, 666307205, 773529912, 1294757372, 1396182291,
   1695183700, 1986661051, 2177026350, 2456956037, 2730485921, 2820302411,
   3259730800, 3345764771, 3516065817, 3600352804, 4094571909, 275423344,
   430227734, 506948616, 659060556, 883997877, 958139571, 1322822218,
   1537002063, 1747873779, 1955562222, 2024104815, 2227730452, 2361852424,
   2428436474, 2756734187, 3204031479, 3329325298]

/-- The SHA-256 initial hash state. -/
def shaH0 : List Nat :=
  [1779033703, 3144134277, 1013904242, 2773480762,
   1359893119, 2600822924, 528734635, 1541459225]

/-- SHA-256 message padding: `0x80`, zeros, then the 64-bit big-endian bit
length, to a multiple of 64 bytes. -/
def shaPad (msg : List Nat) : List Nat :=
  msg ++ 128 :: List.replicate ((64 - (msg.length + 9) % 64) % 64) 0 ++ bytesBE 8 (msg.length * 8)

/-- Split a 64-byte block into 16 big-endian 32-bit words. -/
def shaWords : List Nat → List Nat
  | b0 :: b1 :: b2 :: b3 :: rest =>
      ((((b0 <<< 8) ||| b1) <<< 8 ||| b2) <<< 8 ||| b3) :: shaWords rest
  | _ => []

/-- Extend the 16-word message schedule to 64 words (`n` extension steps). -/
def shaExtend (ws : List Nat) : Nat → List Nat
  | 0 => ws
  | n + 1 =>
      let i := ws.length
      let w15 := ws.getD (i - 15) 0
      let w2 := ws.getD (i - 2) 0
      let s0 := (shaRotr 7 w15) ^^^ (shaRotr 18 w15) ^^^ (w15 >>> 3)
      let s1 := (shaRotr 17 w2) ^^^ (shaRotr 19 w2) ^^^ (w2 >>> 10)
      shaExtend (ws ++ [(ws.getD (i - 16) 0 + s0 + ws.getD (i - 7) 0 + s1) % 4294967296]) n

/-- One SHA-256 compression round: the state is `[a,b,c,d,e,f,g,h]`, `kw` the
round constant paired with the schedule word. -/
def shaRound (st : List Nat) (kw : Nat × Nat) : List Nat :=
  match st with
  | [a, b, c, d, e, f, g, h] =>
      let s1 := (shaRotr 6 e) ^^^ (shaRotr 11 e) ^^^ (shaRotr 25 e)
      let ch := (e &&& f) ^^^ ((4294967295 ^^^ e) &&& g)
      let temp1 := (h + s1 + ch + kw.1 + kw.2) % 4294967296
      let s0 := (shaRotr 2 a) ^^^ (shaRotr 13 a) ^^^ (shaRotr 22 a)
      let maj := (a &&& b) ^^^ (a &&& c) ^^^ (b &&& c)
      let temp2 := (s0 + maj) % 4294967296
      [(temp1 + temp2) % 4294967296, a, b, c, (d + temp1) % 4294967296, e, f, g]
  | _ => st

/-- Process `count` 64-byte blocks of `bytes`, updating the hash state. -/
def shaBlocks (hs : List Nat) (bytes : List Nat) : Nat → List Nat
  | 0 => hs
  | count + 1 =>
      let ws := shaExtend (shaWords (bytes.take 64)) 48
      let st := (shaK.zip ws).foldl shaRound hs
      let hs' := (hs.zip st).map (fun p => (p.1 + p.2) % 4294967296)
      shaBlocks hs' (bytes.drop 64) count

/-- SHA-256 of a byte list, as 32 bytes. -/
def sha256 (msg : List Nat) : List Nat :=
  let padded := shaPad msg
  ((shaBlocks shaH0 padded (padded.length / 64)).map (bytesBE 4)).flatten

/-! ## Value types and keyed entries -/

/-- `GBKFCore::ValueType`: the value kinds handled by the codec
(`BLOB`, `STRING` and `TEXT` exist as tags but are rejected by the
`KeyedEntry` constructor and the reader dispatch). -/
inductive ValueType where
  | boolean | int8 | int16 | int32 | int64
  | uint8 | uint16 | uint32 | uint64
  | float32 | float64
  deriving DecidableEq, Repr

/-- The wire tag byte of each supported `ValueType` (the enum values in
`GBKFCore.hxx`). -/
def ValueType.tag : ValueType → Nat
  | .boolean => 1
  | .int8 => 20
  | .int32 => 21
  | .int16 => 22
  | .int64 => 23
  | .uint8 => 30
  | .uint16 => 31
  | .uint32 => 33
  | .uint64 => 34
  | .float32 => 40
  | .float64 => 41

/-- The typed value list held by a `KeyedEntry` (`m_values` behind the type
tag): booleans as `Bool`, signed integers as `Int`, unsigned integers as
`Nat`, floats as their IEEE-754 bit patterns (`Nat`). -/
inductive EntryValues where
  | boolean (vs : List Bool)
  | int8 (vs : List Int)
  | int16 (vs : List Int)
  | int32 (vs : List Int)
  | int64 (vs : List Int)
  | uint8 (vs : List Nat)
  | uint16 (vs : List Nat)
  | uint32 (vs : List Nat)
  | uint64 (vs : List Nat)
  | float32 (vs : List Nat)
  | float64 (vs : List Nat)
  deriving DecidableEq, Repr

/-- `KeyedEntry::getType`. -/
def EntryValues.type : EntryValues → ValueType
  | .boolean _ => .boolean
  | .int8 _ => .int8
  | .int16 _ => .int16
  | .int32 _ => .int32
  | .int64 _ => .int64
  | .uint8 _ => .uint8
  | .uint16 _ => .uint16
  | .uint32 _ => .uint32
  | .uint64 _ => .uint64
  | .float32 _ => .float32
  | .float64 _ => .float64

/-- `GBKFCore::KeyedEntry`: an instance id and the typed value list. -/
structure KeyedEntry where
  instance_id : Nat
  values : EntryValues
  deriving DecidableEq, Repr

/-! ## Reader primitives

Each `Reader::readX` takes the byte buffer and a start position and returns
the value together with the next position.  The C++ code indexes
`m_bytes_data` without bounds checks (out of range would be undefined
behaviour); the model returns `outOfBounds` there. -/

/-- `Reader::readUInt8`. -/
def readUInt8 (data : List Nat) (pos : Nat) : Except GbkfError (Nat × Nat) :=
  if pos + 1 ≤ data.length then .ok (data.getD pos 0, pos + 1)
  else .error .outOfBounds

/-- `Reader::readUInt16`: two bytes, big-endian. -/
def readUInt16 (data : List Nat) (pos : Nat) : Except GbkfError (Nat × Nat) :=
  if pos + 2 ≤ data.length then
    .ok ((data.getD pos 0 <<< 8) ||| data.getD (pos + 1) 0, pos + 2)
  else .error .outOfBounds

/-- `Reader::readUInt32`: four bytes, big-endian. -/
def readUInt32 (data : List Nat) (pos : Nat) : Except GbkfError (Nat × Nat) :=
  if pos + 4 ≤ data.length then
    .ok ((((data.getD pos 0 <<< 24) ||| (data.getD (pos + 1) 0 <<< 16)) |||
          (data.getD (pos + 2) 0 <<< 8)) ||| data.getD (pos + 3) 0, pos + 4)
  else .error .outOfBounds

/-- `Reader::readUInt64`: eight bytes, big-endian, accumulated by
`value = (value << 8) | byte`. -/
def readUInt64 (data : List Nat) (pos : Nat) : Except GbkfError (Nat × Nat) :=
  if pos + 8 ≤ data.length then
    .ok ((List.range 8).foldl (fun v i => (v <<< 8) ||| data.getD (pos + i) 0) 0, pos + 8)
  else .error .outOfBounds

/-- `Reader::readAscii`: `length` raw bytes (no transformation, no
NUL-trimming). -/
def readAscii (data : List Nat) (pos len : Nat) : Except GbkfError (List Nat × Nat) :=
  if pos + len ≤ data.length then .ok ((data.drop pos).take len, pos + len)
  else .error .outOfBounds

/-- `Reader::readFloat32`: `memcpy` of 4 bytes into a `float` on a
little-endian host, i.e. the little-endian bit pattern. -/
def readFloat32 (data : List Nat) (pos : Nat) : Except GbkfError (Nat × Nat) :=
  if pos + 4 ≤ data.length then
    .ok (data.getD pos 0 + (data.getD (pos + 1) 0) * 256 +
         (data.getD (pos + 2) 0) * 65536 + (data.getD (pos + 3) 0) * 16777216, pos + 4)
  else .error .outOfBounds

/-- `Reader::readFloat64`: `memcpy` of 8 bytes into a `double` on a
little-endian host. -/
def readFloat64 (data : List Nat) (pos : Nat) : Except GbkfError (Nat × Nat) :=
  if pos + 8 ≤ data.length then
    .ok ((List.range 8).foldr (fun i v => v * 256 + data.getD (pos + i) 0) 0, pos + 8)
  else .error .outOfBounds

/-- Reinterpret an unsigned `w`-bit value as the signed value of a
`static_cast<intN_t>` (two's complement). -/
def toSigned (w : Nat) (v : Nat) : Int :=
  if v < 2 ^ (w - 1) then (v : Int) else (v : Int) - 2 ^ w

/-- The byte loop of `Reader::readValuesBool`: `remaining` bytes left to read,
the final byte contributing `last_byte_bools_nb` bits, the others 8, bits
taken LSB-first. -/
def readBoolBytes (data : List Nat) (last_byte_bools_nb : Nat) :
    Nat → Nat → Except GbkfError (List Bool × Nat)
  | 0, pos => .ok ([], pos)
  | remaining + 1, pos => do
      let (byte, pos') ← readUInt8 data pos
      let bits := if remaining = 0 then last_byte_bools_nb else 8
      let vals := (List.range bits).map (fun bit => ((byte >>> bit) &&& 1) == 1)
      let (rest, final) ← readBoolBytes data last_byte_bools_nb remaining pos'
      .ok (vals ++ rest, final)

/-- `Reader::readValuesBool`: validates `last_byte_bools_nb ∈ [1,8]`, then
reads `values_nb / 8 + (last_byte_bools_nb == 8 ? 0 : 1)` packed bytes. -/
def readValuesBool (data : List Nat) (pos values_nb last_byte_bools_nb : Nat) :
    Except GbkfError (List Bool × Nat) :=
  if last_byte_bools_nb < 1 ∨ last_byte_bools_nb > 8 then
    .error .boolLastByteOutOfBounds
  else
    readBoolBytes data last_byte_bools_nb
      (values_nb / 8 + (if last_byte_bools_nb = 8 then 0 else 1)) pos

/-- The common shape of `Reader::readValuesX`: read `values_nb` scalars with
`readOne`, threading the position. -/
def readValuesWith (readOne : List Nat → Nat → Except GbkfError (Nat × Nat))
    (data : List Nat) : Nat → Nat → Except GbkfError (List Nat × Nat)
  | 0, pos => .ok ([], pos)
  | values_nb + 1, pos => do
      let (v, pos') ← readOne data pos
      let (rest, final) ← readValuesWith readOne data values_nb pos'
      .ok (v :: rest, final)

/-- `Reader::readValuesUInt8`. -/
def readValuesUInt8 (data : List Nat) (pos values_nb : Nat) :
    Except GbkfError (List Nat × Nat) :=
  readValuesWith readUInt8 data values_nb pos

/-- `Reader::readValuesUInt16`. -/
def readValuesUInt16 (data : List Nat) (pos values_nb : Nat) :
    Except GbkfError (List Nat × Nat) :=
  readValuesWith readUInt16 data values_nb pos

/-- `Reader::readValuesUInt32`. -/
def readValuesUInt32 (data : List Nat) (pos values_nb : Nat) :
    Except GbkfError (List Nat × Nat) :=
  readValuesWith readUInt32 data values_nb pos

/-- `Reader::readValuesUInt64`. -/
def readValuesUInt64 (data : List Nat) (pos values_nb : Nat) :
    Except GbkfError (List Nat × Nat) :=
  readValuesWith readUInt64 data values_nb pos

/-- `Reader::readValuesInt8`: unsigned reads cast with
`static_cast<int8_t>`. -/
def readValuesInt8 (data : List Nat) (pos values_nb : Nat) :
    Except GbkfError (List Int × Nat) := do
  let (vs, final) ← readValuesWith readUInt8 data values_nb pos
  .ok (vs.map (toSigned 8), final)

/-- `Reader::readValuesInt16`. -/
def readValuesInt16 (data : List Nat) (pos values_nb : Nat) :
    Except GbkfError (List Int × Nat) := do
  let (vs, final) ← readValuesWith readUInt16 data values_nb pos
  .ok (vs.map (toSigned 16), final)

/-- `Reader::readValuesInt32`. -/
def readValuesInt32 (data : List Nat) (pos values_nb : Nat) :
    Except GbkfError (List Int × Nat) := do
  let (vs, final) ← readValuesWith readUInt32 data values_nb pos
  .ok (vs.map (toSigned 32), final)

/-- `Reader::readValuesInt64`. -/
def readValuesInt64 (data : List Nat) (pos values_nb : Nat) :
    Except GbkfError (List Int × Nat) := do
  let (vs, final) ← readValuesWith readUInt64 data values_nb pos
  .ok (vs.map (toSigned 64), final)

/-- `Reader::readValuesFloat32`. -/
def readValuesFloat32 (data : List Nat) (pos values_nb : Nat) :
    Except GbkfError (List Nat × Nat) :=
  readValuesWith readFloat32 data values_nb pos

/-- `Reader::readValuesFloat64`. -/
def readValuesFloat64 (data : List Nat) (pos values_nb : Nat) :
    Except GbkfError (List Nat × Nat) :=
  readValuesWith readFloat64 data values_nb pos

/-! ## The entry-stream decoder -/

/-- The second half of the `Reader::getKeyedEntries` loop body: after the
key, read instance id, value count and type tag, then the tag-dispatched
value payload.  A tag byte outside the supported set (including `BLOB`,
`STRING` and `TEXT`, which the `KeyedEntry` constructor rejects) is an
error. -/
def parseEntryBody (data : List Nat) (p1 : Nat) :
    Except GbkfError (KeyedEntry × Nat) := do
  let (instance_id, p2) ← readUInt32 data p1
  let (values_nb, p3) ← readUInt32 data p2
  let (values_type, p4) ← readUInt8 data p3
  match values_type with
  | 1 => do
      let (last_byte_bools_nb, q) ← readUInt8 data p4
      let (vs, q') ← readValuesBool data q values_nb last_byte_bools_nb
      .ok (⟨instance_id, .boolean vs⟩, q')
  | 20 => do
      let (vs, q) ← readValuesInt8 data p4 values_nb
      .ok (⟨instance_id, .int8 vs⟩, q)
  | 22 => do
      let (vs, q) ← readValuesInt16 data p4 values_nb
      .ok (⟨instance_id, .int16 vs⟩, q)
  | 21 => do
      let (vs, q) ← readValuesInt32 data p4 values_nb
      .ok (⟨instance_id, .int32 vs⟩, q)
  | 23 => do
      let (vs, q) ← readValuesInt64 data p4 values_nb
      .ok (⟨instance_id, .int64 vs⟩, q)
  | 30 => do
      let (vs, q) ← readValuesUInt8 data p4 values_nb
      .ok (⟨instance_id, .uint8 vs⟩, q)
  | 31 => do
      let (vs, q) ← readValuesUInt16 data p4 values_nb
      .ok (⟨instance_id, .uint16 vs⟩, q)
  | 33 => do
      let (vs, q) ← readValuesUInt32 data p4 values_nb
      .ok (⟨instance_id, .uint32 vs⟩, q)
  | 34 => do
      let (vs, q) ← readValuesUInt64 data p4 values_nb
      .ok (⟨instance_id, .uint64 vs⟩, q)
  | 40 => do
      let (vs, q) ← readValuesFloat32 data p4 values_nb
      .ok (⟨instance_id, .float32 vs⟩, q)
  | 41 => do
      let (vs, q) ← readValuesFloat64 data p4 values_nb
      .ok (⟨instance_id, .float64 vs⟩, q)
  | _ => .error .unsupportedValueType

/-- The body of the `Reader::getKeyedEntries` loop: the `keys_length`-byte
key, then the rest of the entry. -/
def parseEntry (data : List Nat) (keys_length pos : Nat) :
    Except GbkfError ((List Nat × KeyedEntry) × Nat) := do
  let (key, p1) ← readAscii data pos keys_length
  let (e, p') ← parseEntryBody data p1
  .ok ((key, e), p')

/-- The decoded mapping: `std::unordered_map<std::string, std::vector<KeyedEntry>>`
modelled as an association list keyed by the raw key bytes (lookup semantics
coincide; C++ iteration order is unspecified, the model keeps first-insertion
order). -/
abbrev EntriesMapping := List (List Nat × List KeyedEntry)

/-- The map-update step at the end of the `getKeyedEntries` loop: push onto
the existing vector for `key`, or insert a fresh singleton. -/
def insertEntry (m : EntriesMapping) (key : List Nat) (e : KeyedEntry) :
    EntriesMapping :=
  if m.any (fun p => p.1 == key) then
    m.map (fun p => if p.1 == key then (p.1, p.2 ++ [e]) else p)
  else m ++ [(key, [e])]

/-- The `Reader::getKeyedEntries` loop: `count` entries starting at `pos`,
accumulated into the mapping. -/
def parseEntriesLoop (data : List Nat) (keys_length : Nat) :
    Nat → Nat → EntriesMapping → Except GbkfError EntriesMapping
  | 0, _, m => .ok m
  | count + 1, pos, m => do
      let ((key, e), pos') ← parseEntry data keys_length pos
      parseEntriesLoop data keys_length count pos' (insertEntry m key e)

/-! ## The Reader -/

/-- `GBKFCore::Reader`: the buffer, the two digests, and the decoded header
fields. -/
structure Reader where
  bytes_data : List Nat
  sha256_read : List Nat
  sha256_calculated : List Nat
  gbkf_version : Nat
  specification_id : Nat
  specification_version : Nat
  keys_length : Nat
  keyed_values_nb : Nat
  deriving DecidableEq, Repr

/-- The value `Reader::readHeader` stores in `m_keys_length` (byte 11). -/
def headerKeysLength (data : List Nat) : Nat := data.getD 11 0

/-- The value `Reader::readHeader` stores in `m_keyed_values_nb`
(big-endian u32 at bytes 12..15). -/
def headerKeyedValuesNb (data : List Nat) : Nat :=
  (((data.getD 12 0 <<< 24) ||| (data.getD 13 0 <<< 16)) |||
   (data.getD 14 0 <<< 8)) ||| data.getD 15 0

/-- `Reader::Reader(const std::vector<uint8_t>&)`: rejects buffers below 32
bytes, then `readSha` (split the last 32 bytes off and hash the rest) and
`readHeader` (length and magic checks, then the five header fields). -/
def Reader.ofBytes (data : List Nat) : Except GbkfError Reader :=
  if data.length < Constants.SHA256_LENGTH then .error .dataTooSmall
  else
    let sha_read := data.drop (data.length - Constants.SHA256_LENGTH)
    let sha_calc := sha256 (data.take (data.length - Constants.SHA256_LENGTH))
    if data.length < Constants.HEADER_LENGTH then .error .headerTooShort
    else if data.take 4 ≠ Constants.START_KEYWORD then .error .invalidStartKeyword
    else do
      let (gbkf_version, _) ← readUInt8 data Constants.GBKF_VERSION_START
      let (specification_id, _) ← readUInt32 data Constants.SPECIFICATION_ID_START
      let (specification_version, _) ← readUInt16 data Constants.SPECIFICATION_VERSION_START
      let (keys_length, _) ← readUInt8 data Constants.KEYS_LENGTH_START
      let (keyed_values_nb, _) ← readUInt32 data Constants.KEYED_VALUES_NB_START
      .ok { bytes_data := data, sha256_read := sha_read, sha256_calculated := sha_calc,
            gbkf_version, specification_id, specification_version,
            keys_length, keyed_values_nb }

/-- `Reader::verifiesSha`: the stored and the computed digest agree. -/
def Reader.verifiesSha (r : Reader) : Bool :=
  r.sha256_read == r.sha256_calculated

/-- `Reader::getKeyedEntries`: walk `m_keyed_values_nb` entries starting
right after the header. -/
def Reader.getKeyedEntries (r : Reader) : Except GbkfError EntriesMapping :=
  parseEntriesLoop r.bytes_data r.keys_length r.keyed_values_nb
    Constants.HEADER_LENGTH []

/-! ## The Writer -/

/-- `GBKFCore::Writer`: the growing byte buffer, the declared key width, the
entry counter (a `uint32_t`, hence `% 2^32` on increment) and the
deduplicated, order-preserving list of keys used so far. -/
structure Writer where
  byte_buffer : List Nat
  keys_length : Nat
  keyed_values_nb : Nat
  keys : List (List Nat)
  deriving DecidableEq, Repr

/-- The bit pattern of `+infinity` as a `float` — the unique `float` bit
pattern whose value compares greater than `Constants::GBKF_FLOAT32_MAX`
(which equals `FLT_MAX`; `NaN` comparisons are false). -/
def posInfBits32 : Nat := 0x7F800000

/-- The bit pattern of `+infinity` as a `double` — the unique `double` bit
pattern whose value compares greater than `Constants::GBKF_FLOAT62_MAX`
(which equals `DBL_MAX`). -/
def posInfBits64 : Nat := 0x7FF0000000000000

/-- The bit pattern of `-infinity` as a `float`. -/
def negInfBits32 : Nat := 0xFF800000

namespace Writer

/-- `Writer::formatKey`: the raw bytes of the key, with no validation and no
padding. -/
def formatKey (key : List Nat) : List Nat := key

/-- `Writer::formatUInt16`: two bytes, big-endian. -/
def formatUInt16 (v : Nat) : List Nat := bytesBE 2 v

/-- `Writer::formatUInt32`: four bytes, big-endian. -/
def formatUInt32 (v : Nat) : List Nat := bytesBE 4 v

/-- `Writer::formatUInt64`: eight bytes, big-endian. -/
def formatUInt64 (v : Nat) : List Nat := bytesBE 8 v

/-- `Writer::formatFloat32`: rejects a value greater than
`GBKF_FLOAT32_MAX` (i.e. exactly `+infinity`, see `posInfBits32` — the
check is one-sided, `-infinity` passes), then `memcpy`s the 4-byte pattern
(little-endian host). -/
def formatFloat32 (bits : Nat) : Except GbkfError (List Nat) :=
  if bits = posInfBits32 then .error .float32TooLarge
  else .ok (bytesLE 4 bits)

/-- `Writer::formatFloat64`: rejects a value greater than
`GBKF_FLOAT62_MAX` (i.e. exactly `+infinity`), then `memcpy`s the 8-byte
pattern. -/
def formatFloat64 (bits : Nat) : Except GbkfError (List Nat) :=
  if bits = posInfBits64 then .error .float64TooLarge
  else .ok (bytesLE 8 bits)

/-- `Writer::getKeyedValuesHeader`: key bytes, instance id (u32), value
count (u32), tag byte. -/
def getKeyedValuesHeader (key : List Nat) (instance_id values_nb : Nat)
    (value_type : ValueType) : List Nat :=
  formatKey key ++ formatUInt32 instance_id ++ formatUInt32 values_nb ++
    [value_type.tag]

/-- `Writer::setUInt8`: range check against `min_value`, then overwrite one
byte in place. -/
def setUInt8 (w : Writer) (value min_value start_pos : Nat) :
    Except GbkfError Writer :=
  if value < min_value then .error .valueOutOfRange
  else .ok { w with byte_buffer := setBytesAt w.byte_buffer start_pos [value] }

/-- `Writer::setUInt16`. -/
def setUInt16 (w : Writer) (value min_value start_pos : Nat) :
    Except GbkfError Writer :=
  if value < min_value then .error .valueOutOfRange
  else .ok { w with byte_buffer := setBytesAt w.byte_buffer start_pos (formatUInt16 value) }

/-- `Writer::setUInt32`. -/
def setUInt32 (w : Writer) (value min_value start_pos : Nat) :
    Except GbkfError Writer :=
  if value < min_value then .error .valueOutOfRange
  else .ok { w with byte_buffer := setBytesAt w.byte_buffer start_pos (formatUInt32 value) }

/-- `Writer::setGBKFVersion` (default 0). -/
def setGBKFVersion (w : Writer) (value : Nat := 0) : Except GbkfError Writer :=
  w.setUInt8 value 0 Constants.GBKF_VERSION_START

/-- `Writer::setSpecificationId` (default 0). -/
def setSpecificationId (w : Writer) (value : Nat := 0) : Except GbkfError Writer :=
  w.setUInt32 value 0 Constants.SPECIFICATION_ID_START

/-- `Writer::setSpecificationVersion` (default 0). -/
def setSpecificationVersion (w : Writer) (value : Nat := 0) : Except GbkfError Writer :=
  w.setUInt16 value 0 Constants.SPECIFICATION_VERSION_START

/-- `Writer::setKeysLength` (default 1): every key recorded so far must have
length `value` (else "Key length mismatch"), then the header byte is written
with minimum 1 (else "Value out of range") and `m_keys_length` updated. -/
def setKeysLength (w : Writer) (value : Nat := 1) : Except GbkfError Writer :=
  if w.keys.any (fun k => k.length != value) then .error .keyLengthMismatch
  else do
    let w' ← w.setUInt8 value 1 Constants.KEYS_LENGTH_START
    .ok { w' with keys_length := value }

/-- `Writer::setKeyedValuesNb` (default 0). -/
def setKeyedValuesNb (w : Writer) (value : Nat := 0) : Except GbkfError Writer :=
  w.setUInt32 value 0 Constants.KEYED_VALUES_NB_START

/-- `Writer::setKeyedValuesNbAuto`: patch the header count field from the
in-memory counter. -/
def setKeyedValuesNbAuto (w : Writer) : Except GbkfError Writer :=
  w.setKeyedValuesNb w.keyed_values_nb

/-- `Writer::reset`: zero the header region, stamp the magic, clear the
in-memory state, and write the default header fields. -/
def reset (w : Writer) : Except GbkfError Writer := do
  let w := { w with
    byte_buffer := setBytesAt (List.replicate Constants.HEADER_LENGTH 0) 0 Constants.START_KEYWORD,
    keyed_values_nb := 0, keys := [], keys_length := 1 }
  let w ← w.setGBKFVersion
  let w ← w.setSpecificationId
  let w ← w.setSpecificationVersion
  let w ← w.setKeysLength
  let w ← w.setKeyedValuesNb
  .ok w

/-- `Writer::Writer()`: a fresh writer (counter 0, key width 1, then
`reset`). -/
def new : Except GbkfError Writer :=
  reset { byte_buffer := [], keys_length := 1, keyed_values_nb := 0, keys := [] }

/-- The common epilogue of every `Writer::addKeyedValuesX`: append the entry
bytes, bump the `uint32_t` counter, and record the key if unseen. -/
def pushEntry (w : Writer) (key : List Nat) (line_bytes : List Nat) : Writer :=
  { w with
    byte_buffer := w.byte_buffer ++ line_bytes,
    keyed_values_nb := (w.keyed_values_nb + 1) % 4294967296,
    keys := if key ∈ w.keys then w.keys else w.keys ++ [key] }

/-- One iteration of the bit-packing loop of `Writer::addKeyedValuesBoolean`:
`if (values[i]) packed[i/8] |= 1 << (i%8)`. -/
def packStep (values : List Bool) (packed : List Nat) (i : Nat) : List Nat :=
  if values.getD i false then
    packed.set (i / 8) (packed.getD (i / 8) 0 ||| (1 <<< (i % 8)))
  else packed

/-- The boolean bit-packing loop of `Writer::addKeyedValuesBoolean`: a
`ceil(n/8)`-byte zero vector, then `packed[i/8] |= 1 << (i%8)` for every
true bit (LSB-first within each byte). -/
def packBools (values : List Bool) : List Nat :=
  (List.range values.length).foldl (packStep values)
    (List.replicate ((values.length + 7) / 8) 0)

/-- The "last byte number of used booleans" of
`Writer::addKeyedValuesBoolean`: `n % 8`, replaced by 8 when that is 0 and
the list is nonempty. -/
def lastBoolsNb (values : List Bool) : Nat :=
  if values.length % 8 = 0 ∧ values ≠ [] then 8 else values.length % 8

/-- `Writer::addKeyedValuesBoolean`: entry header, the last-valid-bits byte,
then the packed booleans. -/
def addKeyedValuesBoolean (w : Writer) (key : List Nat) (instance_id : Nat)
    (values : List Bool) : Writer :=
  pushEntry w key
    (getKeyedValuesHeader key instance_id values.length .boolean ++
      lastBoolsNb values :: packBools values)

/-- `Writer::addKeyedValuesInt8`: each value appended as
`static_cast<uint8_t>` of the `int8_t` (two's complement byte). -/
def addKeyedValuesInt8 (w : Writer) (key : List Nat) (instance_id : Nat)
    (values : List Int) : Writer :=
  pushEntry w key
    (getKeyedValuesHeader key instance_id values.length .int8 ++
      values.flatMap (fun v => [(v % 256).toNat]))

/-- `Writer::addKeyedValuesInt16`: `formatUInt16` of the
`static_cast<uint16_t>` of each value. -/
def addKeyedValuesInt16 (w : Writer) (key : List Nat) (instance_id : Nat)
    (values : List Int) : Writer :=
  pushEntry w key
    (getKeyedValuesHeader key instance_id values.length .int16 ++
      values.flatMap (fun v => formatUInt16 (v % 65536).toNat))

/-- `Writer::addKeyedValuesInt32`. -/
def addKeyedValuesInt32 (w : Writer) (key : List Nat) (instance_id : Nat)
    (values : List Int) : Writer :=
  pushEntry w key
    (getKeyedValuesHeader key instance_id values.length .int32 ++
      values.flatMap (fun v => formatUInt32 (v % 4294967296).toNat))

/-- `Writer::addKeyedValuesInt64`. -/
def addKeyedValuesInt64 (w : Writer) (key : List Nat) (instance_id : Nat)
    (values : List Int) : Writer :=
  pushEntry w key
    (getKeyedValuesHeader key instance_id values.length .int64 ++
      values.flatMap (fun v => formatUInt64 (v % 18446744073709551616).toNat))

/-- `Writer::addKeyedValuesUInt8`: the values are appended as raw bytes. -/
def addKeyedValuesUInt8 (w : Writer) (key : List Nat) (instance_id : Nat)
    (values : List Nat) : Writer :=
  pushEntry w key
    (getKeyedValuesHeader key instance_id values.length .uint8 ++ values)

/-- `Writer::addKeyedValuesUInt16`. -/
def addKeyedValuesUInt16 (w : Writer) (key : List Nat) (instance_id : Nat)
    (values : List Nat) : Writer :=
  pushEntry w key
    (getKeyedValuesHeader key instance_id values.length .uint16 ++
      values.flatMap formatUInt16)

/-- `Writer::addKeyedValuesUInt32`. -/
def addKeyedValuesUInt32 (w : Writer) (key : List Nat) (instance_id : Nat)
    (values : List Nat) : Writer :=
  pushEntry w key
    (getKeyedValuesHeader key instance_id values.length .uint32 ++
      values.flatMap formatUInt32)

/-- `Writer::addKeyedValuesUInt64`. -/
def addKeyedValuesUInt64 (w : Writer) (key : List Nat) (instance_id : Nat)
    (values : List Nat) : Writer :=
  pushEntry w key
    (getKeyedValuesHeader key instance_id values.length .uint64 ++
      values.flatMap formatUInt64)

/-- The value-formatting loop of the float adders: format each value (which
can fail on `+infinity`) and append. -/
def formatFloatList (fmt : Nat → Except GbkfError (List Nat)) :
    List Nat → Except GbkfError (List Nat)
  | [] => .ok []
  | v :: vs => do
      let b ← fmt v
      let rest ← formatFloatList fmt vs
      .ok (b ++ rest)

/-- `Writer::addKeyedValuesFloat32`: the entry header and each value's 4
bytes are assembled first (`formatFloat32` may throw, in which case the
writer is left untouched — nothing has been appended to `m_byte_buffer`
yet), then appended. -/
def addKeyedValuesFloat32 (w : Writer) (key : List Nat) (instance_id : Nat)
    (values : List Nat) : Except GbkfError Writer := do
  let payload ← formatFloatList formatFloat32 values
  .ok (pushEntry w key
    (getKeyedValuesHeader key instance_id values.length .float32 ++ payload))

/-- `Writer::addKeyedValuesFloat64`. -/
def addKeyedValuesFloat64 (w : Writer) (key : List Nat) (instance_id : Nat)
    (values : List Nat) : Except GbkfError Writer := do
  let payload ← formatFloatList formatFloat64 values
  .ok (pushEntry w key
    (getKeyedValuesHeader key instance_id values.length .float64 ++ payload))

/-- The bytes `Writer::write` produces (file I/O aside): optionally patch
the header entry count from the in-memory counter, then the buffer followed
by its SHA-256 digest. -/
def writeBytes (w : Writer) (auto_update : Bool := true) :
    Except GbkfError (List Nat) := do
  let w ← if auto_update then w.setKeyedValuesNbAuto else pure w
  .ok (w.byte_buffer ++ sha256 w.byte_buffer)

end Writer

/-! ## General helper lemmas -/

theorem bytesBE_length (w v : Nat) : (bytesBE w v).length = w := by
  induction w generalizing v with
  | zero => rfl
  | succ w ih => simp [bytesBE, ih]

theorem land255_eq_mod (x : Nat) : x &&& 255 = x % 256 := by
  have h := Nat.and_pow_two_sub_one_eq_mod x 8
  norm_num at h
  exact h

theorem land255_lt (x : Nat) : x &&& 255 < 256 := by
  rw [land255_eq_mod]
  exact Nat.mod_lt _ (by norm_num)

theorem bytesBE_mem_lt {w v b : Nat} (hb : b ∈ bytesBE w v) : b < 256 := by
  induction w generalizing v with
  | zero => simp [bytesBE] at hb
  | succ w ih =>
      simp only [bytesBE, List.mem_append, List.mem_singleton] at hb
      rcases hb with h | h
      · exact ih h
      · subst h
        rw [land255_eq_mod]
        exact Nat.mod_lt _ (by norm_num)

theorem getD_append_mid {α : Type} (pre mid suf : List α) (i : Nat)
    (h : i < mid.length) (d : α) :
    (pre ++ mid ++ suf).getD (pre.length + i) d = mid.getD i d := by
  rw [List.append_assoc]
  simp only [List.getD_eq_getElem?_getD]
  rw [List.getElem?_append_right (by omega), Nat.add_sub_cancel_left,
    List.getElem?_append, if_pos h]

/-- Disjoint or is addition: an eight-bit shift followed by or of a byte. -/
theorem shift8_or (acc d : Nat) (hd : d < 256) :
    (acc <<< 8) ||| d = 256 * acc + d := by
  have e : acc <<< 8 = 2 ^ 8 * acc := by rw [Nat.shiftLeft_eq]; ring
  have hd' : d < 2 ^ 8 := by simpa using hd
  rw [e, ← Nat.mul_add_lt_is_or hd' acc]

theorem combine2 (d0 d1 : Nat) (h1 : d1 < 256) :
    (d0 <<< 8) ||| d1 = 256 * d0 + d1 := shift8_or d0 d1 h1

theorem combine4 (d0 d1 d2 d3 : Nat) (h1 : d1 < 256) (h2 : d2 < 256)
    (h3 : d3 < 256) :
    (((d0 <<< 24) ||| (d1 <<< 16)) ||| (d2 <<< 8)) ||| d3
      = ((256 * d0 + d1) * 256 + d2) * 256 + d3 := by
  have e0 : d0 <<< 24 = 2 ^ 24 * d0 := by rw [Nat.shiftLeft_eq]; ring
  have e1 : d1 <<< 16 = d1 * 2 ^ 16 := Nat.shiftLeft_eq _ _
  have e2 : d2 <<< 8 = d2 * 2 ^ 8 := Nat.shiftLeft_eq _ _
  have hb1 : d1 * 2 ^ 16 < 2 ^ 24 := by norm_num; omega
  have hb2 : d2 * 2 ^ 8 < 2 ^ 16 := by norm_num; omega
  have hb3 : d3 < 2 ^ 8 := by norm_num; omega
  rw [e0, e1, ← Nat.mul_add_lt_is_or hb1 d0]
  have r1 : 2 ^ 24 * d0 + d1 * 2 ^ 16 = 2 ^ 16 * (256 * d0 + d1) := by ring
  rw [r1, e2, ← Nat.mul_add_lt_is_or hb2 _]
  have r2 : 2 ^ 16 * (256 * d0 + d1) + d2 * 2 ^ 8
      = 2 ^ 8 * ((256 * d0 + d1) * 256 + d2) := by ring
  rw [r2, ← Nat.mul_add_lt_is_or hb3 _]
  ring

theorem or_lt_256 {a b : Nat} (ha : a < 256) (hb : b < 256) : a ||| b < 256 := by
  have : a ||| b < 2 ^ 8 := by
    apply Nat.lt_pow_two_of_testBit
    intro i hi
    rw [Nat.testBit_or]
    have hpow : (256 : Nat) ≤ 2 ^ i := by
      calc (256 : Nat) = 2 ^ 8 := by norm_num
        _ ≤ 2 ^ i := Nat.pow_le_pow_right (by norm_num) hi
    have ta : a.testBit i = false := Nat.testBit_lt_two_pow (by omega)
    have tb : b.testBit i = false := Nat.testBit_lt_two_pow (by omega)
    rw [ta, tb]
    rfl
  simpa using this

theorem getD_replicate_zero (c j : Nat) : (List.replicate c (0 : Nat)).getD j 0 = 0 := by
  induction c generalizing j with
  | zero => simp [List.replicate]
  | succ c ih =>
      cases j with
      | zero => simp [List.replicate]
      | succ j => simp [List.replicate, ih j]

/-! ## Big-endian integer serialization: digit forms and inversion -/

theorem formatUInt16_digits (v : Nat) :
    Writer.formatUInt16 v = [v / 256 % 256, v % 256] := by
  simp only [Writer.formatUInt16, bytesBE, land255_eq_mod, Nat.shiftRight_eq_div_pow,
    List.nil_append]
  norm_num

theorem formatUInt32_digits (v : Nat) :
    Writer.formatUInt32 v =
      [v / 16777216 % 256, v / 65536 % 256, v / 256 % 256, v % 256] := by
  simp only [Writer.formatUInt32, bytesBE, land255_eq_mod, Nat.shiftRight_eq_div_pow,
    Nat.div_div_eq_div_mul, List.nil_append, List.append_assoc, List.cons_append]

theorem formatUInt64_digits (v : Nat) :
    Writer.formatUInt64 v =
      [v / 72057594037927936 % 256, v / 281474976710656 % 256,
       v / 1099511627776 % 256, v / 4294967296 % 256,
       v / 16777216 % 256, v / 65536 % 256, v / 256 % 256, v % 256] := by
  simp only [Writer.formatUInt64, bytesBE, land255_eq_mod, Nat.shiftRight_eq_div_pow,
    Nat.div_div_eq_div_mul, List.nil_append, List.append_assoc, List.cons_append]

theorem readUInt16_inverse (v : Nat) (hv : v < 65536) (pre suf : List Nat) :
    readUInt16 (pre ++ Writer.formatUInt16 v ++ suf) pre.length
      = .ok (v, pre.length + 2) := by
  have hlen : (Writer.formatUInt16 v).length = 2 := bytesBE_length 2 v
  have hL : (pre ++ Writer.formatUInt16 v ++ suf).length
      = pre.length + (2 + suf.length) := by simp [hlen]
  unfold readUInt16
  rw [if_pos (by omega)]
  have g0 := getD_append_mid pre (Writer.formatUInt16 v) suf 0 (by omega) 0
  have g1 := getD_append_mid pre (Writer.formatUInt16 v) suf 1 (by omega) 0
  rw [Nat.add_zero] at g0
  rw [g0, g1, formatUInt16_digits]
  simp only [List.getD_cons_zero, List.getD_cons_succ]
  rw [combine2 _ _ (Nat.mod_lt _ (by norm_num))]
  have : 256 * (v / 256 % 256) + v % 256 = v := by omega
  rw [this]

theorem readUInt32_inverse (v : Nat) (hv : v < 4294967296) (pre suf : List Nat) :
    readUInt32 (pre ++ Writer.formatUInt32 v ++ suf) pre.length
      = .ok (v, pre.length + 4) := by
  have hlen : (Writer.formatUInt32 v).length = 4 := bytesBE_length 4 v
  have hL : (pre ++ Writer.formatUInt32 v ++ suf).length
      = pre.length + (4 + suf.length) := by simp [hlen]
  unfold readUInt32
  rw [if_pos (by omega)]
  have g0 := getD_append_mid pre (Writer.formatUInt32 v) suf 0 (by omega) 0
  have g1 := getD_append_mid pre (Writer.formatUInt32 v) suf 1 (by omega) 0
  have g2 := getD_append_mid pre (Writer.formatUInt32 v) suf 2 (by omega) 0
  have g3 := getD_append_mid pre (Writer.formatUInt32 v) suf 3 (by omega) 0
  rw [Nat.add_zero] at g0
  rw [g0, g1, g2, g3, formatUInt32_digits]
  simp only [List.getD_cons_zero, List.getD_cons_succ]
  rw [combine4 _ _ _ _ (Nat.mod_lt _ (by norm_num)) (Nat.mod_lt _ (by norm_num))
    (Nat.mod_lt _ (by norm_num))]
  have : ((256 * (v / 16777216 % 256) + v / 65536 % 256) * 256 + v / 256 % 256) * 256
      + v % 256 = v := by omega
  rw [this]

theorem readUInt64_inverse (v : Nat) (hv : v < 18446744073709551616)
    (pre suf : List Nat) :
    readUInt64 (pre ++ Writer.formatUInt64 v ++ suf) pre.length
      = .ok (v, pre.length + 8) := by
  have hlen : (Writer.formatUInt64 v).length = 8 := bytesBE_length 8 v
  have hL : (pre ++ Writer.formatUInt64 v ++ suf).length
      = pre.length + (8 + suf.length) := by simp [hlen]
  unfold readUInt64
  rw [if_pos (by omega)]
  have g : ∀ i, i < 8 →
      (pre ++ Writer.formatUInt64 v ++ suf).getD (pre.length + i) 0
        = (Writer.formatUInt64 v).getD i 0 := fun i hi =>
    getD_append_mid pre (Writer.formatUInt64 v) suf i (by omega) 0
  have hrange : List.range 8 = [0, 1, 2, 3, 4, 5, 6, 7] := rfl
  rw [hrange]
  simp only [List.foldl_cons, List.foldl_nil]
  rw [g 0 (by norm_num), g 1 (by norm_num), g 2 (by norm_num), g 3 (by norm_num),
    g 4 (by norm_num), g 5 (by norm_num), g 6 (by norm_num), g 7 (by norm_num),
    formatUInt64_digits]
  simp only [List.getD_cons_zero, List.getD_cons_succ]
  rw [Nat.zero_shiftLeft, Nat.zero_or,
    shift8_or _ _ (Nat.mod_lt _ (by norm_num)), shift8_or _ _ (Nat.mod_lt _ (by norm_num)),
    shift8_or _ _ (Nat.mod_lt _ (by norm_num)), shift8_or _ _ (Nat.mod_lt _ (by norm_num)),
    shift8_or _ _ (Nat.mod_lt _ (by norm_num)), shift8_or _ _ (Nat.mod_lt _ (by norm_num)),
    shift8_or _ _ (Nat.mod_lt _ (by norm_num))]
  have : 256 * (256 * (256 * (256 * (256 * (256 * (256 * (v / 72057594037927936 % 256)
      + v / 281474976710656 % 256) + v / 1099511627776 % 256) + v / 4294967296 % 256)
      + v / 16777216 % 256) + v / 65536 % 256) + v / 256 % 256) + v % 256 = v := by
    omega
  rw [this]

/-! ## The boolean packing loop -/

theorem packAux (vs : List Bool) (m : Nat) (hm : m ≤ vs.length) :
    ((List.range m).foldl (Writer.packStep vs)
        (List.replicate ((vs.length + 7) / 8) 0)).length = (vs.length + 7) / 8 ∧
    (∀ j, ((List.range m).foldl (Writer.packStep vs)
        (List.replicate ((vs.length + 7) / 8) 0)).getD j 0 < 256) ∧
    (∀ j k, k < 8 →
      (((List.range m).foldl (Writer.packStep vs)
          (List.replicate ((vs.length + 7) / 8) 0)).getD j 0).testBit k
        = if 8 * j + k < m then vs.getD (8 * j + k) false else false) := by
  induction m with
  | zero =>
      refine ⟨by simp, fun j => by simp [getD_replicate_zero], fun j k hk => ?_⟩
      simp [getD_replicate_zero]
  | succ m ih =>
      obtain ⟨ih1, ih2, ih3⟩ := ih (by omega)
      rw [List.range_succ, List.foldl_append, List.foldl_cons, List.foldl_nil]
      set P := (List.range m).foldl (Writer.packStep vs)
        (List.replicate ((vs.length + 7) / 8) 0) with hP
      by_cases hv : vs.getD m false = true
      · simp only [Writer.packStep, hv, if_true]
        have hdiv : m / 8 < (vs.length + 7) / 8 := by omega
        have hdivP : m / 8 < P.length := by rw [ih1]; exact hdiv
        have getDQ : ∀ j, (P.set (m / 8) (P.getD (m / 8) 0 ||| (1 <<< (m % 8)))).getD j 0
            = if j = m / 8 then P.getD (m / 8) 0 ||| (1 <<< (m % 8)) else P.getD j 0 := by
          intro j
          by_cases hj : j = m / 8
          · subst hj
            rw [if_pos rfl]
            simp only [List.getD_eq_getElem?_getD, List.getElem?_set_self hdivP,
              Option.getD_some]
          · rw [if_neg hj]
            simp only [List.getD_eq_getElem?_getD]
            rw [List.getElem?_set_ne (by omega)]
        have hshift : (1 <<< (m % 8)) < 256 := by
          rw [Nat.one_shiftLeft]
          calc 2 ^ (m % 8) < 2 ^ 8 :=
                Nat.pow_lt_pow_right (by norm_num) (Nat.mod_lt _ (by norm_num))
            _ = 256 := by norm_num
        refine ⟨by rw [List.length_set, ih1], fun j => ?_, fun j k hk => ?_⟩
        · rw [getDQ j]
          by_cases hj : j = m / 8
          · rw [if_pos hj]
            exact or_lt_256 (ih2 (m / 8)) hshift
          · rw [if_neg hj]
            exact ih2 j
        · rw [getDQ j]
          by_cases hj : j = m / 8
          · subst hj
            rw [if_pos rfl, Nat.testBit_or, ih3 _ k hk, Nat.one_shiftLeft,
              Nat.testBit_two_pow]
            by_cases hkm : k = m % 8
            · have he : 8 * (m / 8) + k = m := by omega
              rw [he, if_neg (Nat.lt_irrefl m), if_pos (Nat.lt_succ_self m), hv]
              simp [hkm]
            · have hne : ¬(m % 8 = k) := fun h => hkm h.symm
              simp only [decide_eq_false hne, Bool.or_false]
              by_cases h1 : 8 * (m / 8) + k < m
              · rw [if_pos h1, if_pos (by omega)]
              · rw [if_neg h1, if_neg (by omega)]
          · rw [if_neg hj, ih3 j k hk]
            by_cases h1 : 8 * j + k < m
            · rw [if_pos h1, if_pos (by omega)]
            · rw [if_neg h1, if_neg (by omega)]
      · have hv' : vs.getD m false = false := by
          cases h : vs.getD m false
          · rfl
          · exact absurd h hv
        simp only [Writer.packStep, hv', Bool.false_eq_true, if_false]
        refine ⟨ih1, ih2, fun j k hk => ?_⟩
        rw [ih3 j k hk]
        by_cases h1 : 8 * j + k < m
        · rw [if_pos h1, if_pos (by omega)]
        · rw [if_neg h1]
          by_cases h2 : 8 * j + k < m + 1
          · rw [if_pos h2]
            have he : 8 * j + k = m := by omega
            rw [he, hv']
          · rw [if_neg h2]

/-! ## Frame facts about the writer -/

@[simp] theorem except_bind_ok {α β : Type} (a : α) (f : α → Except GbkfError β) :
    (Except.ok a >>= f) = f a := rfl

@[simp] theorem except_bind_error {α β : Type} (e : GbkfError)
    (f : α → Except GbkfError β) :
    ((Except.error e : Except GbkfError α) >>= f) = Except.error e := rfl

@[simp] theorem except_pure_eq_ok {α : Type} (a : α) :
    (pure a : Except GbkfError α) = Except.ok a := rfl

theorem getD_append_left {α : Type} (buf tail : List α) (i : Nat) (d : α)
    (h : i < buf.length) : (buf ++ tail).getD i d = buf.getD i d := by
  simp only [List.getD_eq_getElem?_getD]
  rw [List.getElem?_append, if_pos h]

/-- What every successful `addKeyedValues*` call does to the writer state:
bytes are only appended (all existing bytes, the header region included, are
unchanged), the `uint32_t` entry counter is incremented (by exactly one
whenever it cannot wrap), and the key is appended to the key list only when
it is not already recorded, preserving first-use order.  The declared key
width is untouched. -/
def addFrame (w w' : Writer) (key : List Nat) : Prop :=
  (∃ tail, w'.byte_buffer = w.byte_buffer ++ tail) ∧
  (∀ i, i < w.byte_buffer.length →
    w'.byte_buffer.getD i 0 = w.byte_buffer.getD i 0) ∧
  w'.keyed_values_nb = (w.keyed_values_nb + 1) % 4294967296 ∧
  (w.keyed_values_nb < 4294967295 → w'.keyed_values_nb = w.keyed_values_nb + 1) ∧
  w'.keys = (if key ∈ w.keys then w.keys else w.keys ++ [key]) ∧
  w'.keys_length = w.keys_length

theorem pushEntry_frame (w : Writer) (key line_bytes : List Nat) :
    addFrame w (w.pushEntry key line_bytes) key := by
  refine ⟨⟨line_bytes, rfl⟩, fun i hi => getD_append_left _ _ i 0 hi, rfl, ?_, rfl, rfl⟩
  intro h
  simp only [Writer.pushEntry]
  omega

/-- `formatFloatList` over a format function that rejects exactly one bad
pattern: it fails with that error iff the bad pattern occurs, and otherwise
concatenates the encodings. -/
theorem formatFloatList_spec (bad : Nat) (e : GbkfError) (enc : Nat → List Nat)
    (fmt : Nat → Except GbkfError (List Nat))
    (hfmt : ∀ v, fmt v = if v = bad then .error e else .ok (enc v)) :
    ∀ vals : List Nat,
      (bad ∈ vals → Writer.formatFloatList fmt vals = .error e) ∧
      (bad ∉ vals → Writer.formatFloatList fmt vals = .ok (vals.flatMap enc)) := by
  intro vals
  induction vals with
  | nil => exact ⟨fun h => absurd h (List.not_mem_nil _), fun _ => rfl⟩
  | cons v vs ih =>
      constructor
      · intro hmem
        by_cases hv : v = bad
        · simp [Writer.formatFloatList, hfmt, hv]
        · have hvs : bad ∈ vs := by
            rcases List.mem_cons.mp hmem with h | h
            · exact absurd h.symm hv
            · exact h
          simp [Writer.formatFloatList, hfmt, hv, ih.1 hvs]
      · intro hmem
        have hv : ¬ v = bad := fun h => hmem (by rw [h]; exact List.mem_cons_self _ _)
        have hvs : bad ∉ vs := fun h => hmem (List.mem_cons_of_mem _ h)
        simp [Writer.formatFloatList, hfmt, hv, ih.2 hvs]

/-- The writer state `Writer::Writer()` constructs (see `writer_new_eq`):
the 16-byte header with magic "gbkf", key width 1 and all other fields 0. -/
def freshWriter : Writer :=
  { byte_buffer := [103, 98, 107, 102, 0, 0, 0, 0, 0, 0, 0, 1, 0, 0, 0, 0],
    keys_length := 1, keyed_values_nb := 0, keys := [] }

theorem writer_new_eq : Writer.new = .ok freshWriter := rfl

/-! ## The claims -/

/-- **C10.** For every 16-, 32-, or 64-bit unsigned integer `v`, the Writer's
`formatUInt16/32/64` produce exactly the field-width bytes of `v` in
big-endian order (most significant byte first), and the Reader's
`readUInt16/32/64` applied at position `p` to a buffer containing those bytes
return exactly the pair `(v, p + field width)`; the two families are mutually
inverse. -/
theorem c10_uint_format_read_inverse (v : Nat) :
    (v < 65536 →
      Writer.formatUInt16 v = [v / 256, v % 256] ∧
      ∀ pre suf : List Nat,
        readUInt16 (pre ++ Writer.formatUInt16 v ++ suf) pre.length
          = .ok (v, pre.length + 2)) ∧
    (v < 4294967296 →
      Writer.formatUInt32 v
          = [v / 16777216, v / 65536 % 256, v / 256 % 256, v % 256] ∧
      ∀ pre suf : List Nat,
        readUInt32 (pre ++ Writer.formatUInt32 v ++ suf) pre.length
          = .ok (v, pre.length + 4)) ∧
    (v < 18446744073709551616 →
      Writer.formatUInt64 v
          = [v / 72057594037927936, v / 281474976710656 % 256,
             v / 1099511627776 % 256, v / 4294967296 % 256,
             v / 16777216 % 256, v / 65536 % 256, v / 256 % 256, v % 256] ∧
      ∀ pre suf : List Nat,
        readUInt64 (pre ++ Writer.formatUInt64 v ++ suf) pre.length
          = .ok (v, pre.length + 8)) := by
  refine ⟨fun hv => ⟨?_, fun pre suf => readUInt16_inverse v hv pre suf⟩,
    fun hv => ⟨?_, fun pre suf => readUInt32_inverse v hv pre suf⟩,
    fun hv => ⟨?_, fun pre suf => readUInt64_inverse v hv pre suf⟩⟩
  · rw [formatUInt16_digits]
    have : v / 256 % 256 = v / 256 := by omega
    rw [this]
  · rw [formatUInt32_digits]
    have : v / 16777216 % 256 = v / 16777216 := by omega
    rw [this]
  · rw [formatUInt64_digits]
    have : v / 72057594037927936 % 256 = v / 72057594037927936 := by omega
    rw [this]

/-- Witness for C10 at `v = 258`: `formatUInt16` yields the big-endian bytes
`[1, 2]`, and `readUInt16` at position 1 recovers `(258, 3)`. -/
theorem c10_witness :
    (258 : Nat) < 65536 ∧
    Writer.formatUInt16 258 = [1, 2] ∧
    readUInt16 ([9] ++ Writer.formatUInt16 258 ++ [7]) 1 = .ok (258, 3) :=
  ⟨by norm_num,
   ((c10_uint_format_read_inverse 258).1 (by norm_num)).1,
   ((c10_uint_format_read_inverse 258).1 (by norm_num)).2 [9] [7]⟩

/-- **C4 (amended).** The `addKeyedValues*` calls perform no key-width
validation: for every writer state and every key — whatever its byte length,
matching the declared key width or not — `addKeyedValuesUInt16` succeeds
(it is a total function in the embedding because the source performs no
check) and appends the entry header built from the raw key bytes followed by
the big-endian values.  Key-width consistency is only ever checked by
`setKeysLength`. -/
theorem c4_add_performs_no_key_validation (w : Writer) (key : List Nat)
    (instance_id : Nat) (values : List Nat) :
    (w.addKeyedValuesUInt16 key instance_id values).byte_buffer
      = w.byte_buffer ++ Writer.formatKey key ++ Writer.formatUInt32 instance_id
        ++ Writer.formatUInt32 values.length ++ [ValueType.uint16.tag]
        ++ values.flatMap Writer.formatUInt16 := by
  simp [Writer.addKeyedValuesUInt16, Writer.pushEntry, Writer.getKeyedValuesHeader,
    Writer.formatKey, List.append_assoc]

/-- **C4 counterexample.** On a fresh writer whose declared key width is 1,
adding an entry under the 2-byte key "AB" does not fail and appends the full
entry — the claim that a mismatched key raises an error and appends nothing
is false. -/
theorem c4_counterexample :
    freshWriter.keys_length = 1 ∧
    (freshWriter.addKeyedValuesUInt16 [65, 66] 7 [1]).byte_buffer
      = freshWriter.byte_buffer ++ [65, 66, 0, 0, 0, 7, 0, 0, 0, 1, 31, 0, 1] ∧
    (freshWriter.addKeyedValuesUInt16 [65, 66] 7 [1]).byte_buffer
      ≠ freshWriter.byte_buffer := by
  refine ⟨rfl, rfl, ?_⟩
  decide

/-- **C8.** `setKeysLength w v` fails with a key-length mismatch when some
recorded key's length differs from `v` (checked at the setter itself), fails
with a range error when `v < 1`, and on success writes `v` both into the
header byte at offset 11 and into the in-memory key width, leaving
everything else unchanged.  (On failure no new writer state is produced, so
the declared width is unchanged.) -/
theorem c8_setKeysLength_validates (w : Writer) (v : Nat)
    (hbuf : 16 ≤ w.byte_buffer.length) :
    ((∃ k ∈ w.keys, k.length ≠ v) →
      w.setKeysLength v = .error .keyLengthMismatch) ∧
    ((∀ k ∈ w.keys, k.length = v) → v = 0 →
      w.setKeysLength v = .error .valueOutOfRange) ∧
    ((∀ k ∈ w.keys, k.length = v) → 1 ≤ v →
      w.setKeysLength v
          = .ok { w with byte_buffer := w.byte_buffer.set 11 v, keys_length := v } ∧
      (w.byte_buffer.set 11 v).getD 11 0 = v) := by
  refine ⟨?_, ?_, ?_⟩
  · rintro ⟨k, hk, hne⟩
    have hany : w.keys.any (fun k => k.length != v) = true :=
      List.any_eq_true.mpr ⟨k, hk, by simpa [bne_iff_ne] using hne⟩
    simp [Writer.setKeysLength, hany]
  · intro hall h0
    have hany : w.keys.any (fun k => k.length != v) = false := by
      simp only [List.any_eq_false, bne_iff_ne, ne_eq, not_not]
      exact hall
    subst h0
    simp [Writer.setKeysLength, hany, Writer.setUInt8]
  · intro hall hv1
    have hany : w.keys.any (fun k => k.length != v) = false := by
      simp only [List.any_eq_false, bne_iff_ne, ne_eq, not_not]
      exact hall
    constructor
    · simp only [Writer.setKeysLength, hany, Bool.false_eq_true, if_false,
        Writer.setUInt8, Constants.KEYS_LENGTH_START, if_neg (by omega : ¬ v < 1),
        except_bind_ok, setBytesAt]
    · simp only [List.getD_eq_getElem?_getD,
        List.getElem?_set_self (show 11 < w.byte_buffer.length by omega),
        Option.getD_some]

/-- Witness for C8: on a writer that has recorded the 1-byte key "A",
`setKeysLength 2` fails with the mismatch error; on the fresh writer,
`setKeysLength 0` fails with the range error and `setKeysLength 3`
succeeds, writing 3 into header byte 11 and the in-memory width. -/
theorem c8_witness :
    { freshWriter with keys := [[65]] }.setKeysLength 2
        = .error .keyLengthMismatch ∧
    freshWriter.setKeysLength 0 = .error .valueOutOfRange ∧
    freshWriter.setKeysLength 3
        = .ok { freshWriter with
                  byte_buffer := freshWriter.byte_buffer.set 11 3,
                  keys_length := 3 } ∧
    (freshWriter.byte_buffer.set 11 3).getD 11 0 = 3 :=
  ⟨(c8_setKeysLength_validates { freshWriter with keys := [[65]] } 2 (by decide)).1
      ⟨[65], by decide, by decide⟩,
   (c8_setKeysLength_validates freshWriter 0 (by decide)).2.1 (by decide) rfl,
   ((c8_setKeysLength_validates freshWriter 3 (by decide)).2.2 (by decide)
      (by norm_num)).1,
   ((c8_setKeysLength_validates freshWriter 3 (by decide)).2.2 (by decide)
      (by norm_num)).2⟩

/-- **C9.** Every successful `addKeyedValues*` call (all eleven value kinds)
only appends bytes at the end of the buffer — every byte already in the
buffer, the entire fixed header region included, is unchanged — increments
the in-memory entry counter by exactly one (as a `uint32_t`), and appends
the key to the key list only if not already present, preserving first-use
order (`addFrame`). -/
theorem c9_add_appends_only (w : Writer) (key : List Nat) (instance_id : Nat) :
    (∀ vs, addFrame w (w.addKeyedValuesBoolean key instance_id vs) key) ∧
    (∀ vs, addFrame w (w.addKeyedValuesInt8 key instance_id vs) key) ∧
    (∀ vs, addFrame w (w.addKeyedValuesInt16 key instance_id vs) key) ∧
    (∀ vs, addFrame w (w.addKeyedValuesInt32 key instance_id vs) key) ∧
    (∀ vs, addFrame w (w.addKeyedValuesInt64 key instance_id vs) key) ∧
    (∀ vs, addFrame w (w.addKeyedValuesUInt8 key instance_id vs) key) ∧
    (∀ vs, addFrame w (w.addKeyedValuesUInt16 key instance_id vs) key) ∧
    (∀ vs, addFrame w (w.addKeyedValuesUInt32 key instance_id vs) key) ∧
    (∀ vs, addFrame w (w.addKeyedValuesUInt64 key instance_id vs) key) ∧
    (∀ vs w', w.addKeyedValuesFloat32 key instance_id vs = .ok w' →
      addFrame w w' key) ∧
    (∀ vs w', w.addKeyedValuesFloat64 key instance_id vs = .ok w' →
      addFrame w w' key) := by
  refine ⟨fun vs => pushEntry_frame w key _, fun vs => pushEntry_frame w key _,
    fun vs => pushEntry_frame w key _, fun vs => pushEntry_frame w key _,
    fun vs => pushEntry_frame w key _, fun vs => pushEntry_frame w key _,
    fun vs => pushEntry_frame w key _, fun vs => pushEntry_frame w key _,
    fun vs => pushEntry_frame w key _, ?_, ?_⟩
  · intro vs w' h
    unfold Writer.addKeyedValuesFloat32 at h
    cases hfl : Writer.formatFloatList Writer.formatFloat32 vs with
    | error e => rw [hfl] at h; simp at h
    | ok payload =>
        rw [hfl] at h
        simp only [except_bind_ok, Except.ok.injEq] at h
        subst h
        exact pushEntry_frame w key _
  · intro vs w' h
    unfold Writer.addKeyedValuesFloat64 at h
    cases hfl : Writer.formatFloatList Writer.formatFloat64 vs with
    | error e => rw [hfl] at h; simp at h
    | ok payload =>
        rw [hfl] at h
        simp only [except_bind_ok, Except.ok.injEq] at h
        subst h
        exact pushEntry_frame w key _

/-- Witness for C9: a boolean add on the fresh writer satisfies the frame,
and so does a concretely successful float32 add. -/
theorem c9_witness :
    addFrame freshWriter (freshWriter.addKeyedValuesBoolean [65] 3 [true]) [65] ∧
    addFrame freshWriter
      (Writer.pushEntry freshWriter [70]
        (Writer.getKeyedValuesHeader [70] 1 1 .float32 ++ [0, 0, 0, 0])) [70] :=
  ⟨(c9_add_appends_only freshWriter [65] 3).1 [true],
   (c9_add_appends_only freshWriter [70] 1).2.2.2.2.2.2.2.2.2.1 [0] _ rfl⟩

/-- **C7 (amended).** The float adders reject only values *greater than* the
representable maximum — for the source's constants exactly `+infinity` — and
raise the error before anything is appended to the buffer (the entry bytes
are assembled first, so a failing call leaves the writer untouched).
Negative out-of-range values (`-infinity`) are *not* rejected: when no value
equals `+infinity` the call succeeds and serializes every bit pattern
as-is. -/
theorem c7_float_reject_only_positive (w : Writer) (key : List Nat)
    (instance_id : Nat) (values : List Nat) :
    (posInfBits32 ∈ values →
      w.addKeyedValuesFloat32 key instance_id values = .error .float32TooLarge) ∧
    (posInfBits32 ∉ values →
      w.addKeyedValuesFloat32 key instance_id values
        = .ok (Writer.pushEntry w key
            (Writer.getKeyedValuesHeader key instance_id values.length .float32
              ++ values.flatMap (bytesLE 4)))) ∧
    (posInfBits64 ∈ values →
      w.addKeyedValuesFloat64 key instance_id values = .error .float64TooLarge) ∧
    (posInfBits64 ∉ values →
      w.addKeyedValuesFloat64 key instance_id values
        = .ok (Writer.pushEntry w key
            (Writer.getKeyedValuesHeader key instance_id values.length .float64
              ++ values.flatMap (bytesLE 8)))) := by
  have h32 := formatFloatList_spec posInfBits32 .float32TooLarge (bytesLE 4)
    Writer.formatFloat32 (fun v => rfl) values
  have h64 := formatFloatList_spec posInfBits64 .float64TooLarge (bytesLE 8)
    Writer.formatFloat64 (fun v => rfl) values
  refine ⟨fun hmem => ?_, fun hmem => ?_, fun hmem => ?_, fun hmem => ?_⟩
  · unfold Writer.addKeyedValuesFloat32
    rw [h32.1 hmem]
    rfl
  · unfold Writer.addKeyedValuesFloat32
    rw [h32.2 hmem]
    rfl
  · unfold Writer.addKeyedValuesFloat64
    rw [h64.1 hmem]
    rfl
  · unfold Writer.addKeyedValuesFloat64
    rw [h64.2 hmem]
    rfl

/-- Witness for C7 (amended): `+infinity` in the value list makes the float32
add fail; `-infinity` alone does not. -/
theorem c7_witness :
    freshWriter.addKeyedValuesFloat32 [65] 1 [posInfBits32]
        = .error .float32TooLarge ∧
    freshWriter.addKeyedValuesFloat32 [65] 1 [negInfBits32]
        = .ok (Writer.pushEntry freshWriter [65]
            (Writer.getKeyedValuesHeader [65] 1 1 .float32
              ++ [negInfBits32].flatMap (bytesLE 4))) :=
  ⟨(c7_float_reject_only_positive freshWriter [65] 1 [posInfBits32]).1
      (List.mem_cons_self _ _),
   (c7_float_reject_only_positive freshWriter [65] 1 [negInfBits32]).2.1
      (by decide)⟩

/-- **C7 counterexample.** `-infinity` (bit pattern `0xFF800000`), a negative
value whose magnitude cannot be represented, is serialized without any error:
`formatFloat32` returns its little-endian bytes and the add call succeeds —
the claim that negative out-of-range values raise an error is false. -/
theorem c7_counterexample :
    Writer.formatFloat32 negInfBits32 = .ok [0, 0, 128, 255] ∧
    freshWriter.addKeyedValuesFloat32 [66] 2 [negInfBits32]
      = .ok (Writer.pushEntry freshWriter [66]
          (Writer.getKeyedValuesHeader [66] 2 1 .float32 ++ [0, 0, 128, 255])) :=
  ⟨rfl, rfl⟩

/-- **C5.** For every list of `n` booleans, `addKeyedValuesBoolean` appends
exactly `ceil(n/8)` packed payload bytes, packed LSB-first within each byte,
preceded by one last-valid-bits byte that equals 8 when `n` is a nonzero
multiple of 8 and equals `n % 8` otherwise. -/
theorem c5_boolean_packing (w : Writer) (key : List Nat) (instance_id : Nat)
    (vs : List Bool) :
    (w.addKeyedValuesBoolean key instance_id vs).byte_buffer
      = w.byte_buffer
        ++ Writer.getKeyedValuesHeader key instance_id vs.length .boolean
        ++ [if vs.length % 8 = 0 ∧ vs.length ≠ 0 then 8 else vs.length % 8]
        ++ Writer.packBools vs ∧
    (Writer.packBools vs).length = (vs.length + 7) / 8 ∧
    (∀ i, i < vs.length →
      ((Writer.packBools vs).getD (i / 8) 0).testBit (i % 8)
        = vs.getD i false) := by
  refine ⟨?_, (packAux vs vs.length le_rfl).1, fun i hi => ?_⟩
  · have hlast : Writer.lastBoolsNb vs
        = (if vs.length % 8 = 0 ∧ vs.length ≠ 0 then 8 else vs.length % 8) := by
      simp [Writer.lastBoolsNb, List.length_eq_zero]
    simp [Writer.addKeyedValuesBoolean, Writer.pushEntry, hlast, List.append_assoc]
  · have h := (packAux vs vs.length le_rfl).2.2 (i / 8) (i % 8)
      (Nat.mod_lt _ (by norm_num))
    unfold Writer.packBools
    rw [h, Nat.div_add_mod, if_pos hi]

/-- Witness for C5 at the three-element list `[true, false, true]`: bit 2 of
the single packed byte equals the third boolean. -/
theorem c5_witness :
    (2 : Nat) < 3 ∧
    ((Writer.packBools [true, false, true]).getD (2 / 8) 0).testBit (2 % 8)
      = [true, false, true].getD 2 false :=
  ⟨by norm_num,
   (c5_boolean_packing freshWriter [66] 1 [true, false, true]).2.2 2 (by norm_num)⟩

/-- `readAscii` succeeds only on the in-bounds branch, returning the raw
slice. -/
theorem readAscii_ok_inv (data : List Nat) (pos len : Nat) (k : List Nat)
    (p' : Nat) (h : readAscii data pos len = .ok (k, p')) :
    k = (data.drop pos).take len ∧ p' = pos + len := by
  unfold readAscii at h
  by_cases hb : pos + len ≤ data.length
  · rw [if_pos hb] at h
    simp only [Except.ok.injEq, Prod.mk.injEq] at h
    exact ⟨h.1.symm, h.2.symm⟩
  · rw [if_neg hb] at h
    simp at h

/-- **C6 (amended).** The key under which a decoded entry appears is the raw
`key_width`-byte key field exactly as stored: `readAscii` returns the full
slice with no NUL-trimming, and the key produced by `parseEntry` is that raw
slice — NUL bytes inside or at the end of the key field are preserved in the
mapping key. -/
theorem c6_key_is_raw_slice (data : List Nat) (keys_length pos : Nat) :
    (pos + keys_length ≤ data.length →
      readAscii data pos keys_length
        = .ok ((data.drop pos).take keys_length, pos + keys_length)) ∧
    (∀ key e p', parseEntry data keys_length pos = .ok ((key, e), p') →
      key = (data.drop pos).take keys_length) := by
  constructor
  · intro h
    unfold readAscii
    rw [if_pos h]
  · intro key e p' h
    unfold parseEntry at h
    cases hra : readAscii data pos keys_length with
    | error err => rw [hra] at h; simp at h
    | ok kp =>
        obtain ⟨k, p1⟩ := kp
        rw [hra] at h
        simp only [except_bind_ok] at h
        cases hb : parseEntryBody data p1 with
        | error err => rw [hb] at h; simp at h
        | ok ep =>
            obtain ⟨e', q⟩ := ep
            rw [hb] at h
            simp only [except_bind_ok, Except.ok.injEq, Prod.mk.injEq] at h
            rw [← h.1.1]
            exact (readAscii_ok_inv data pos keys_length k p1 hra).1

/-- Witness for C6 (amended): reading a 2-byte key field containing
`['A', NUL]` returns both bytes, the NUL included. -/
theorem c6_witness :
    (0 : Nat) + 2 ≤ ([65, 0, 66] : List Nat).length ∧
    readAscii [65, 0, 66] 0 2 = .ok ([65, 0], 2) :=
  ⟨by norm_num, (c6_key_is_raw_slice [65, 0, 66] 2 0).1 (by norm_num)⟩

/-- A buffer whose single entry's 2-byte key field is `['A', NUL]`:
header (key width 2, one entry), the entry (instance id 1, one UINT8 value
5), and an arbitrary 32-byte footer. -/
def c6data : List Nat :=
  [103, 98, 107, 102, 0, 0, 0, 0, 0, 0, 0, 2, 0, 0, 0, 1] ++
  [65, 0, 0, 0, 0, 1, 0, 0, 0, 1, 30, 5] ++ List.replicate 32 0

/-- **C6 counterexample.** Decoding `c6data` yields the mapping under the raw
key `[65, 0]` — the NUL padding byte is part of the returned key — and no
entry appears under the NUL-trimmed key `[65]`, contradicting the claim that
keys are trimmed at the first NUL. -/
theorem c6_counterexample :
    (do
      let r ← Reader.ofBytes c6data
      r.getKeyedEntries)
      = .ok [([65, 0], [⟨1, .uint8 [5]⟩])] ∧
    ([([65, 0], [(⟨1, .uint8 [5]⟩ : KeyedEntry)])] : EntriesMapping).any
        (fun p => p.1 == [65]) = false :=
  ⟨rfl, rfl⟩

/-- The 16-byte buffer holding exactly a valid header and nothing else. -/
def c2dataShort : List Nat :=
  [103, 98, 107, 102, 0, 0, 0, 0, 0, 0, 0, 1, 0, 0, 0, 0]

/-- A 40-byte buffer with a valid header: long enough for the Reader's
32-byte minimum, but too short to hold a header plus a 32-byte footer. -/
def c2data40 : List Nat := c2dataShort ++ List.replicate 24 0

/-- **C2 (amended).** Constructing a Reader from a buffer with a valid header
but too short for the trailing digest succeeds only when the buffer has at
least 32 bytes: below 32 bytes construction is rejected with the
"Data too small" error even though the header is valid.  From 32 up to
(excluding) the 48 bytes needed for header plus footer, construction
succeeds, the instance stores the trailing 32 bytes and the digest of the
rest, and `verifiesSha` returns `false` whenever the two differ (which is
how a missing footer manifests); no error is raised for it. -/
theorem c2_short_buffer (data : List Nat) :
    (data.length < 32 → Reader.ofBytes data = .error .dataTooSmall) ∧
    (32 ≤ data.length → data.length < 48 →
     data.take 4 = Constants.START_KEYWORD →
      ∃ r, Reader.ofBytes data = .ok r ∧
        r.sha256_read = data.drop (data.length - 32) ∧
        r.sha256_calculated = sha256 (data.take (data.length - 32)) ∧
        (data.drop (data.length - 32) ≠ sha256 (data.take (data.length - 32)) →
          r.verifiesSha = false)) := by
  constructor
  · intro h
    unfold Reader.ofBytes
    rw [if_pos (by simpa [Constants.SHA256_LENGTH] using h)]
  · intro h32 h48 hmagic
    unfold Reader.ofBytes
    rw [if_neg (by simp only [Constants.SHA256_LENGTH]; omega),
      if_neg (by simp only [Constants.HEADER_LENGTH]; omega),
      if_neg (by simp [hmagic])]
    have b1 : Constants.GBKF_VERSION_START + 1 ≤ data.length := by
      simp only [Constants.GBKF_VERSION_START]; omega
    have b2 : Constants.SPECIFICATION_ID_START + 4 ≤ data.length := by
      simp only [Constants.SPECIFICATION_ID_START]; omega
    have b3 : Constants.SPECIFICATION_VERSION_START + 2 ≤ data.length := by
      simp only [Constants.SPECIFICATION_VERSION_START]; omega
    have b4 : Constants.KEYS_LENGTH_START + 1 ≤ data.length := by
      simp only [Constants.KEYS_LENGTH_START]; omega
    have b5 : Constants.KEYED_VALUES_NB_START + 4 ≤ data.length := by
      simp only [Constants.KEYED_VALUES_NB_START]; omega
    simp only [readUInt8, readUInt16, readUInt32, b1, b2, b3, b4, b5, if_true,
      except_bind_ok]
    refine ⟨_, rfl, rfl, rfl, fun hne => ?_⟩
    unfold Reader.verifiesSha
    rw [beq_eq_false_iff_ne]
    exact hne

/-- Witness for C2: the bare 16-byte header is rejected as too small, while
the 40-byte valid-header buffer constructs successfully and reports
`verifiesSha = false`. -/
theorem c2_witness :
    (c2dataShort.length < 32 ∧
      Reader.ofBytes c2dataShort = .error .dataTooSmall) ∧
    (32 ≤ c2data40.length ∧ c2data40.length < 48 ∧
      c2data40.take 4 = Constants.START_KEYWORD ∧
      ∃ r, Reader.ofBytes c2data40 = .ok r ∧ r.verifiesSha = false) := by
  refine ⟨⟨by decide, (c2_short_buffer c2dataShort).1 (by decide)⟩,
    by decide, by decide, by decide, ?_⟩
  obtain ⟨r, hr, _, _, himp⟩ :=
    (c2_short_buffer c2data40).2 (by decide) (by decide) (by decide)
  exact ⟨r, hr, himp (by decide)⟩

/-- **C2 counterexample.** The 16-byte buffer holding exactly a valid header
(and therefore lacking the 32-byte digest) does not construct an unverified
Reader: construction fails with the "Data too small" decode error,
contradicting the claim that every valid-header buffer too short for the
digest constructs successfully. -/
theorem c2_counterexample :
    c2dataShort.take 4 = Constants.START_KEYWORD ∧
    Reader.ofBytes c2dataShort = .error .dataTooSmall :=
  ⟨rfl, rfl⟩

/-- **C3.** For every buffer whose header is valid, whose entry stream parses
(structural validity), and whose trailing 32 bytes differ from the SHA-256 of
all preceding bytes: Reader construction succeeds, `getKeyedEntries`
succeeds and returns the decoded entries, and `verifiesSha` returns `false`
— a checksum mismatch is never raised as an error. -/
theorem c3_checksum_mismatch_not_error (data : List Nat) (m : EntriesMapping)
    (hlen : 32 ≤ data.length)
    (hmagic : data.take 4 = Constants.START_KEYWORD)
    (hparse : parseEntriesLoop data (headerKeysLength data)
        (headerKeyedValuesNb data) 16 [] = .ok m)
    (hsha : data.drop (data.length - 32)
        ≠ sha256 (data.take (data.length - 32))) :
    ∃ r, Reader.ofBytes data = .ok r ∧
      r.getKeyedEntries = .ok m ∧ r.verifiesSha = false := by
  unfold Reader.ofBytes
  rw [if_neg (by simp only [Constants.SHA256_LENGTH]; omega),
    if_neg (by simp only [Constants.HEADER_LENGTH]; omega),
    if_neg (by simp [hmagic])]
  have b1 : Constants.GBKF_VERSION_START + 1 ≤ data.length := by
    simp only [Constants.GBKF_VERSION_START]; omega
  have b2 : Constants.SPECIFICATION_ID_START + 4 ≤ data.length := by
    simp only [Constants.SPECIFICATION_ID_START]; omega
  have b3 : Constants.SPECIFICATION_VERSION_START + 2 ≤ data.length := by
    simp only [Constants.SPECIFICATION_VERSION_START]; omega
  have b4 : Constants.KEYS_LENGTH_START + 1 ≤ data.length := by
    simp only [Constants.KEYS_LENGTH_START]; omega
  have b5 : Constants.KEYED_VALUES_NB_START + 4 ≤ data.length := by
    simp only [Constants.KEYED_VALUES_NB_START]; omega
  simp only [readUInt8, readUInt16, readUInt32, b1, b2, b3, b4, b5, if_true,
    except_bind_ok]
  refine ⟨_, rfl, ?_, ?_⟩
  · exact hparse
  · unfold Reader.verifiesSha
    rw [beq_eq_false_iff_ne]
    exact hsha

/-- A structurally valid buffer: header (key width 1, one entry), one UINT8
entry under key "K", and an all-zero (hence wrong) 32-byte footer. -/
def c3data : List Nat :=
  [103, 98, 107, 102, 0, 0, 0, 0, 0, 0, 0, 1, 0, 0, 0, 1] ++
  [75, 0, 0, 0, 2, 0, 0, 0, 1, 30, 9] ++ List.replicate 32 0

/-- Witness for C3: the concrete corrupt-footer buffer `c3data` decodes to
its single entry and reports `verifiesSha = false`. -/
theorem c3_witness :
    32 ≤ c3data.length ∧ c3data.take 4 = Constants.START_KEYWORD ∧
    ∃ r, Reader.ofBytes c3data = .ok r ∧
      r.getKeyedEntries = .ok [([75], [⟨2, .uint8 [9]⟩])] ∧
      r.verifiesSha = false :=
  ⟨by decide, by decide,
   c3_checksum_mismatch_not_error c3data [([75], [⟨2, .uint8 [9]⟩])]
     (by decide) (by decide) (by rfl) (by decide)⟩

/-- **C1 (code bug).** Round-tripping the *empty* boolean list fails: the
writer emits a last-valid-bits byte of 0 (outside the documented 1–8 range),
and the reader then rejects its own writer's output with the
"Boolean reading out of bounds on last byte" error instead of returning the
empty list.  The full pipeline — fresh writer, `addKeyedValuesBoolean` with
`[]`, `write` (entry-count patch plus SHA-256 footer), `Reader`
construction, `getKeyedEntries` — evaluates to that error. -/
theorem c1_empty_boolean_roundtrip_fails :
    (do
      let w ← Writer.new
      let w := w.addKeyedValuesBoolean [65] 1 []
      let buf ← w.writeBytes true
      let r ← Reader.ofBytes buf
      r.getKeyedEntries)
      = .error .boolLastByteOutOfBounds := by
  rfl

end GBKFCore
